import Mathlib

/-!
Verification of the pod-level resource allocation tracking code:
the in-memory allocation state store (`pkg/kubelet/allocation/state`)
and the cgroup-value conversions exercised by the pod-level-resources
e2e test (`test/e2e/node`).

Two embeddings:
* `CgroupEnc` — the pure conversion layer: millicores to cpu shares, shares
  to cgroup v2 weight, millicores to quota/period, memory ceiling, the
  limit-inheritance rule, and the QoS classification together with the
  expectation table recorded in the e2e test `podLevelResourcesTests`.
* `AllocState` — the allocation store `stateMemory`, embedded with an
  explicit heap so that the aliasing behaviour of Go maps (a
  `v1.ResourceList` is a reference) is visible: deep copies allocate fresh
  cells, stores of caller-supplied values share the caller's cells.
-/

namespace CgroupEnc

/-- Quantities are embedded as natural numbers in canonical base units:
CPU quantities in millicores, memory quantities in bytes (so the source's
`"100m"` is `100` and `"100Mi"` is `104857600`). -/
abbrev Quantity := Nat

/-- Minimum cpu shares value (source constant `MinShares`). -/
def MinShares : Nat := 2

/-- Shares granted per full core (source constant `SharesPerCPU`). -/
def SharesPerCPU : Nat := 1024

/-- Millicores per core (source constant `MilliCPUToCPU`). -/
def MilliCPUToCPU : Nat := 1000

/-- Maximum cpu shares value (source constant `MaxShares`). -/
def MaxShares : Nat := 262144

/-- Fixed CFS quota period in microseconds (source constant `QuotaPeriod`,
also the string constant `CPUPeriod = "100000"` in the e2e test). -/
def QuotaPeriod : Nat := 100000

/-- Modelled from the spec: `kubecm.MilliCPUToShares` (the conversion
itself is not under src, only its caller in the e2e test is) — the
monotonic piecewise-linear mapping from a CPU request in millicores to a
legacy shares value, anchored at share 2 for the minimum request and
share 1024 for a one-core request, scaling linearly with floor `MinShares`
and ceiling `MaxShares`. -/
def MilliCPUToShares (milliCPU : Nat) : Nat :=
  if milliCPU = 0 then
    MinShares
  else
    let shares := milliCPU * SharesPerCPU / MilliCPUToCPU
    if shares < MinShares then MinShares
    else if shares > MaxShares then MaxShares
    else shares

/-- The cgroup v1 shares to cgroup v2 weight conversion, from the e2e test
`VerifyPodCgroups`: `1 + ((shares − 2) × 9999) / 262142` with truncating
integer division. -/
def sharesToWeight (shares : Nat) : Nat :=
  1 + (shares - 2) * 9999 / 262142

/-- The expected `cpu.weight` value computed by `VerifyPodCgroups` for a
CPU request in millicores: millicores to shares, then shares to weight —
two composed truncating integer-division steps. -/
def expectedPodCPUWeight (milliCPU : Nat) : Nat :=
  sharesToWeight (MilliCPUToShares milliCPU)

/-- The algebraic shortcut the spec forbids: merging the two truncating
divisions of the millicores-to-shares and shares-to-weight steps into a
single division, skipping the intermediate truncated shares value. -/
def fusedCPUWeight (milliCPU : Nat) : Nat :=
  1 + (milliCPU * SharesPerCPU - MinShares * MilliCPUToCPU) * 9999
      / (262142 * MilliCPUToCPU)

/-- Modelled from the spec: `kubecm.MilliCPUToQuota` (not under src, only
its callers in the e2e test are) — `quota = period × limitMillis / 1000`. -/
def MilliCPUToQuota (milliCPU period : Nat) : Nat :=
  period * milliCPU / MilliCPUToCPU

/-- The expected `cpu.max` line for a CPU limit in millicores, as the e2e
test formats it: the quota and the fixed period, space separated. -/
def quotaLine (milliCPU : Nat) : String :=
  toString (MilliCPUToQuota milliCPU QuotaPeriod) ++ " " ++ toString QuotaPeriod

/-- The expected `memory.max` value for a memory limit in bytes: the byte
value itself, as a decimal string. -/
def memLine (bytes : Nat) : String :=
  toString bytes

/-- Mirror of the e2e test's `ResourceInfo`: four optional quantities, an
absent field standing for the source's empty string (no such request or
limit specified). -/
structure ResourceInfo where
  CPUReq : Option Quantity
  CPULim : Option Quantity
  MemReq : Option Quantity
  MemLim : Option Quantity
deriving DecidableEq, Repr

/-- Mirror of the e2e test's `ContainerInfo`: a name and an optional
resource spec. -/
structure ContainerInfo where
  Name : String
  Resources : Option ResourceInfo
deriving DecidableEq, Repr

/-- The resource spec a container carries: its own when given, otherwise
the all-absent spec (the source's `getResourceInfo` of a nil pointer). -/
def containerSpec (c : ContainerInfo) : ResourceInfo :=
  c.Resources.getD ⟨none, none, none, none⟩

/-- The three pod QoS classes. -/
inductive PodQOSClass where
  | Guaranteed
  | Burstable
  | BestEffort
deriving DecidableEq, Repr

/-- One resource of one scope meets the Guaranteed condition: request
present, limit present, request equal to limit. -/
def guaranteedResource (req lim : Option Quantity) : Bool :=
  match req, lim with
  | some r, some l => r = l
  | _, _ => false

/-- A scope meets the Guaranteed condition for both resources. -/
def guaranteedSpec (r : ResourceInfo) : Bool :=
  guaranteedResource r.CPUReq r.CPULim && guaranteedResource r.MemReq r.MemLim

/-- A scope specifies at least one request or limit. -/
def specifiesAny (r : ResourceInfo) : Bool :=
  r.CPUReq.isSome || r.CPULim.isSome || r.MemReq.isSome || r.MemLim.isSome

/-- The QoS classification exactly as the specification words it — the
claim-side definition, for comparison against the source's expectation
table: Guaranteed only if every resource at every scope (the aggregate and
each container) has request and limit present and equal; Burstable if that
fails but some scope specifies something; BestEffort otherwise. -/
def specEveryScopeQoS (pod : ResourceInfo) (cs : List ContainerInfo) : PodQOSClass :=
  if guaranteedSpec pod && cs.all (fun c => guaranteedSpec (containerSpec c)) then
    .Guaranteed
  else if specifiesAny pod || cs.any (fun c => specifiesAny (containerSpec c)) then
    .Burstable
  else
    .BestEffort

/-- Modelled from the spec and the source expectation table: the QoS class
the code derives for a pod that carries an aggregate (pod-level) resource
spec — determined by the aggregate scope alone, container specs playing no
part (the QoS computation itself is not under src; the e2e test table
`podLevelResourcesTests` records its value on six configurations). -/
def podQoS (pod : ResourceInfo) : PodQOSClass :=
  if guaranteedSpec pod then .Guaranteed
  else if specifiesAny pod then .Burstable
  else .BestEffort

/-- One row of the e2e test table: the pod-level resources, the containers,
and the QoS class the test expects the system to derive. -/
structure QoSTestCase where
  podResources : ResourceInfo
  containers : List ContainerInfo
  expectedQoS : PodQOSClass
deriving DecidableEq, Repr

/-- Test case "Guaranteed QoS pod, no container resources". -/
def tcGuaranteedNoContainers : QoSTestCase :=
  { podResources := ⟨some 100, some 100, some 104857600, some 104857600⟩
    containers := [⟨"c1", none⟩, ⟨"c2", none⟩]
    expectedQoS := .Guaranteed }

/-- Test case "Guaranteed QoS pod with container resources": every
container carries request 50m below its limit 100m (and 50Mi below 100Mi),
yet the recorded expectation is Guaranteed. -/
def tcGuaranteedWithContainers : QoSTestCase :=
  { podResources := ⟨some 100, some 100, some 104857600, some 104857600⟩
    containers :=
      [⟨"c1", some ⟨some 50, some 100, some 52428800, some 104857600⟩⟩,
       ⟨"c2", some ⟨some 50, some 100, some 52428800, some 104857600⟩⟩]
    expectedQoS := .Guaranteed }

/-- Test case "Guaranteed QoS pod, 1 container with resources". -/
def tcGuaranteedOneContainer : QoSTestCase :=
  { podResources := ⟨some 100, some 100, some 104857600, some 104857600⟩
    containers :=
      [⟨"c1", some ⟨some 50, some 100, some 52428800, some 104857600⟩⟩,
       ⟨"c2", none⟩]
    expectedQoS := .Guaranteed }

/-- Test case "Burstable QoS pod, no container resources". -/
def tcBurstableNoContainers : QoSTestCase :=
  { podResources := ⟨some 50, some 100, some 52428800, some 104857600⟩
    containers := [⟨"c1", none⟩, ⟨"c2", none⟩]
    expectedQoS := .Burstable }

/-- Test case "Burstable QoS pod with container resources". -/
def tcBurstableWithContainers : QoSTestCase :=
  { podResources := ⟨some 50, some 100, some 52428800, some 104857600⟩
    containers :=
      [⟨"c1", some ⟨some 20, some 100, some 20971520, some 104857600⟩⟩,
       ⟨"c2", some ⟨some 30, some 100, some 31457280, some 104857600⟩⟩]
    expectedQoS := .Burstable }

/-- Test case "Burstable QoS pod, 1 container with resources". -/
def tcBurstableOneContainer : QoSTestCase :=
  { podResources := ⟨some 50, some 100, some 52428800, some 104857600⟩
    containers :=
      [⟨"c1", some ⟨some 20, some 100, some 52428800, some 104857600⟩⟩,
       ⟨"c2", none⟩]
    expectedQoS := .Burstable }

/-- The six rows of `podLevelResourcesTests` from the e2e test, in source
order. -/
def podLevelResourcesTests : List QoSTestCase :=
  [tcGuaranteedNoContainers, tcGuaranteedWithContainers,
   tcGuaranteedOneContainer, tcBurstableNoContainers,
   tcBurstableWithContainers, tcBurstableOneContainer]

/-- Modelled from the spec: the limit-inheritance rule for CPU — a
container's effective CPU limit is its own when specified, otherwise the
aggregate's (the kubelet enforcement code is not under src; the e2e
test `VerifyContainersCgroupLimits` expresses the same expectation). -/
def inheritedCPULimit (c : ContainerInfo) (pod : ResourceInfo) : Option Quantity :=
  match (containerSpec c).CPULim with
  | some l => some l
  | none => pod.CPULim

/-- Modelled from the spec: the limit-inheritance rule for memory,
independent of the CPU rule. -/
def inheritedMemLimit (c : ContainerInfo) (pod : ResourceInfo) : Option Quantity :=
  match (containerSpec c).MemLim with
  | some l => some l
  | none => pod.MemLim

/-- Modelled from the spec: inheritance never applies to requests — a
container's effective CPU request is its own spec's, the aggregate's
request playing no part. -/
def effectiveCPURequest (c : ContainerInfo) (_pod : ResourceInfo) : Option Quantity :=
  (containerSpec c).CPUReq

/-- Modelled from the spec: a container's effective memory request,
likewise never inherited. -/
def effectiveMemRequest (c : ContainerInfo) (_pod : ResourceInfo) : Option Quantity :=
  (containerSpec c).MemReq

/-- The `cpu.max` line enforced for a container: computed from the
effective (own-else-inherited) CPU limit; absent limit means the scope is
unconstrained and no line is asserted. -/
def containerCPUMax (c : ContainerInfo) (pod : ResourceInfo) : Option String :=
  (inheritedCPULimit c pod).map quotaLine

/-- The `memory.max` value enforced for a container: computed from the
effective (own-else-inherited) memory limit; absent limit asserts
nothing. -/
def containerMemMax (c : ContainerInfo) (pod : ResourceInfo) : Option String :=
  (inheritedMemLimit c pod).map memLine

end CgroupEnc

namespace AllocState

/-- Heap locations: a Go map value (`v1.ResourceList`) is a reference; we
embed each live map as a cell in an explicit heap. -/
abbrev Loc := Nat

/-- The contents of one `v1.ResourceList` map cell: resource name to
quantity (quantities embedded as naturals in canonical base units). -/
abbrev RListVal := List (String × Nat)

/-- The heap of `ResourceList` map cells, with a bump allocator. -/
structure Heap where
  cells : Loc → RListVal
  next : Loc

/-- Read a map cell. -/
def Heap.read (h : Heap) (l : Loc) : RListVal := h.cells l

/-- Mutate a map cell in place (what a Go caller does when it writes to a
`ResourceList` it holds a reference to). -/
def Heap.write (h : Heap) (l : Loc) (v : RListVal) : Heap :=
  { h with cells := fun l2 => if l2 = l then v else h.cells l2 }

/-- Allocate a fresh map cell with the given contents. -/
def Heap.alloc (h : Heap) (v : RListVal) : Heap × Loc :=
  ({ cells := fun l2 => if l2 = h.next then v else h.cells l2, next := h.next + 1 },
   h.next)

/-- The heap with no allocated cells. -/
def emptyHeap : Heap := { cells := fun _ => [], next := 0 }

/-- Mirror of `v1.ResourceRequirements` as the store holds it: the
`Requests` and `Limits` fields are Go maps, so each is a nil-able
reference into the heap. -/
structure ResourceRequirements where
  requests : Option Loc
  limits : Option Loc
deriving DecidableEq, Repr

/-- Copy one nil-able map field: nil stays nil, a non-nil map is copied
into a freshly allocated cell. -/
def copyField (h : Heap) : Option Loc → Heap × Option Loc
  | none => (h, none)
  | some l =>
      let p := h.alloc (h.read l)
      (p.1, some p.2)

/-- `ResourceRequirements.DeepCopy`: fresh cells for the non-nil map
fields, contents copied. -/
def ResourceRequirements.deepCopy (h : Heap) (r : ResourceRequirements) :
    Heap × ResourceRequirements :=
  let p1 := copyField h r.requests
  let p2 := copyField p1.1 r.limits
  (p2.1, ⟨p1.2, p2.2⟩)

/-- The heap locations a spec's map fields point to. -/
def ResourceRequirements.locs (r : ResourceRequirements) : List Loc :=
  r.requests.toList ++ r.limits.toList

/-- The zero value of `v1.ResourceRequirements`: both maps nil. -/
def zeroRR : ResourceRequirements := ⟨none, none⟩

/-- Mirror of `PodResourceInfo`: the per-container specs and the pod-level
spec. The outer Go maps (`podInfoMap` and `ContainerResources`) are
embedded with value semantics — the store never hands them out except
through `Clone`, so only the inner `ResourceList` references decide the
aliasing claims — while every `ResourceList` keeps explicit reference
semantics through the heap. -/
structure PodResourceInfo where
  ContainerResources : List (String × ResourceRequirements)
  PodLevelResources : ResourceRequirements
deriving DecidableEq, Repr

/-- Association-list lookup (Go map read). -/
def lookupA {β : Type} (k : String) : List (String × β) → Option β
  | [] => none
  | p :: rest => if k = p.1 then some p.2 else lookupA k rest

/-- Association-list insert-or-replace (Go map assignment). -/
def insertA {β : Type} (k : String) (v : β) : List (String × β) → List (String × β)
  | [] => [(k, v)]
  | p :: rest => if k = p.1 then (k, v) :: rest else p :: insertA k v rest

/-- Association-list key removal (Go `delete`). -/
def eraseA {β : Type} (k : String) : List (String × β) → List (String × β)
  | [] => []
  | p :: rest => if k = p.1 then rest else p :: eraseA k rest

/-- The keys of an association list. -/
def keys {β : Type} (t : List (String × β)) : List String :=
  t.map Prod.fst

/-- A Go map has each key at most once; tables built by the operations
keep this shape. -/
abbrev KeysNodup {β : Type} (t : List (String × β)) : Prop :=
  (keys t).Nodup

/-- The `stateMemory` state: the heap of live `ResourceList` cells and the
`podInfoMap` table. -/
structure State where
  heap : Heap
  podInfoMap : List (String × PodResourceInfo)

/-- `NewStateMemory`: a store over a given initial table. -/
def NewStateMemory (alloc : List (String × PodResourceInfo)) (h : Heap) : State :=
  { heap := h, podInfoMap := alloc }

/-- The store created empty (`NewStateMemory(nil)`). -/
def initialState : State := NewStateMemory [] emptyHeap

/-- `GetContainerResources`: the zero value when the pod or container is
absent, and in every case a deep copy of the stored spec (fresh cells). -/
def GetContainerResources (s : State) (podUID containerName : String) :
    State × ResourceRequirements × Bool :=
  let found :=
    (lookupA podUID s.podInfoMap).bind
      (fun info => lookupA containerName info.ContainerResources)
  let p := (found.getD zeroRR).deepCopy s.heap
  ({ s with heap := p.1 }, p.2, found.isSome)

/-- `GetPodLevelResources`: deep copy of the pod-level spec, the zero
value when the pod is absent. -/
def GetPodLevelResources (s : State) (podUID : String) : State × ResourceRequirements :=
  let alloc := ((lookupA podUID s.podInfoMap).map
    (fun info => info.PodLevelResources)).getD zeroRR
  let p := alloc.deepCopy s.heap
  ({ s with heap := p.1 }, p.2)

/-- The container-spec part of `PodResourceInfoMap.Clone`: each container
spec deep copied into a fresh map. -/
def cloneContainers (h : Heap) :
    List (String × ResourceRequirements) → Heap × List (String × ResourceRequirements)
  | [] => (h, [])
  | p :: rest =>
      let q := p.2.deepCopy h
      let r := cloneContainers q.1 rest
      (r.1, (p.1, q.2) :: r.2)

/-- `PodResourceInfoMap.Clone`: a fresh table whose pod-level and
container specs are all deep copies. -/
def clonePodMap (h : Heap) :
    List (String × PodResourceInfo) → Heap × List (String × PodResourceInfo)
  | [] => (h, [])
  | p :: rest =>
      let q := p.2.PodLevelResources.deepCopy h
      let r := cloneContainers q.1 p.2.ContainerResources
      let s2 := clonePodMap r.1 rest
      (s2.1, (p.1, ⟨r.2, q.2⟩) :: s2.2)

/-- `GetPodResourceInfoMap`: returns `podInfoMap.Clone()`. -/
def GetPodResourceInfoMap (s : State) : State × List (String × PodResourceInfo) :=
  let p := clonePodMap s.heap s.podInfoMap
  ({ s with heap := p.1 }, p.2)

/-- `SetContainerResources`: creates the pod entry when absent, then
stores the caller's spec as passed — the inner map references in `alloc`
are shared with the caller, not copied. -/
def SetContainerResources (s : State) (podUID containerName : String)
    (alloc : ResourceRequirements) : State :=
  let info := (lookupA podUID s.podInfoMap).getD ⟨[], zeroRR⟩
  let info2 := { info with
    ContainerResources := insertA containerName alloc info.ContainerResources }
  { s with podInfoMap := insertA podUID info2 s.podInfoMap }

/-- `SetPodLevelResources`: creates the pod entry when absent, then
replaces the pod-level spec with the caller's value, references shared. -/
def SetPodLevelResources (s : State) (podUID : String)
    (alloc : ResourceRequirements) : State :=
  let info := (lookupA podUID s.podInfoMap).getD ⟨[], zeroRR⟩
  let info2 := { info with PodLevelResources := alloc }
  { s with podInfoMap := insertA podUID info2 s.podInfoMap }

/-- `SetPodResourceInfoMap`: replaces the whole record for a pod with the
caller's value, references shared. -/
def SetPodResourceInfoMap (s : State) (podUID : String)
    (alloc : PodResourceInfo) : State :=
  { s with podInfoMap := insertA podUID alloc s.podInfoMap }

/-- `deleteContainer`: removes the named container's spec; when no
container specs remain the whole pod entry is removed (the pod-level spec
alone never keeps it alive). Absent pod: delete on the zero value's nil
map is a no-op and removing the absent key changes nothing. -/
def deleteContainer (s : State) (podUID containerName : String) : State :=
  match lookupA podUID s.podInfoMap with
  | none => s
  | some info =>
      let crs := eraseA containerName info.ContainerResources
      if crs.isEmpty then
        { s with podInfoMap := eraseA podUID s.podInfoMap }
      else
        let info2 := { info with ContainerResources := crs }
        { s with podInfoMap := insertA podUID info2 s.podInfoMap }

/-- `Delete`: an empty container name removes the whole pod entry,
otherwise delegates to `deleteContainer`. -/
def Delete (s : State) (podUID containerName : String) : State :=
  if containerName = "" then
    { s with podInfoMap := eraseA podUID s.podInfoMap }
  else
    deleteContainer s podUID containerName

/-- `RemoveOrphanedPods`: keeps exactly the entries whose pod identity is
in the remaining set. -/
def RemoveOrphanedPods (s : State) (remainingPods : List String) : State :=
  { s with podInfoMap := s.podInfoMap.filter (fun p => remainingPods.contains p.1) }

/-- The caller-visible value of a spec: its map fields resolved through
the heap (nil maps stay `none`). -/
def resolveRR (h : Heap) (r : ResourceRequirements) : Option RListVal × Option RListVal :=
  (r.requests.map h.read, r.limits.map h.read)

/-- The resolved value a caller of `GetContainerResources` observes. -/
def readContainerResources (s : State) (podUID containerName : String) :
    (Option RListVal × Option RListVal) × Bool :=
  let p := GetContainerResources s podUID containerName
  (resolveRR p.1.heap p.2.1, p.2.2)

/-- The resolved value a caller of `GetPodLevelResources` observes. -/
def readPodLevelResources (s : State) (podUID : String) :
    Option RListVal × Option RListVal :=
  let p := GetPodLevelResources s podUID
  resolveRR p.1.heap p.2

/-- The resolved value of one record. -/
def resolveInfo (h : Heap) (info : PodResourceInfo) :
    (Option RListVal × Option RListVal)
      × List (String × (Option RListVal × Option RListVal)) :=
  (resolveRR h info.PodLevelResources,
   info.ContainerResources.map (fun p => (p.1, resolveRR h p.2)))

/-- The resolved value of a whole table (what a snapshot holder can
observe of it). -/
def resolveTable (h : Heap) (t : List (String × PodResourceInfo)) :
    List (String × ((Option RListVal × Option RListVal)
      × List (String × (Option RListVal × Option RListVal)))) :=
  t.map (fun p => (p.1, resolveInfo h p.2))

/-- All heap locations referenced from a record. -/
def infoLocs (info : PodResourceInfo) : List Loc :=
  info.PodLevelResources.locs ++ (info.ContainerResources.map (fun p => p.2.locs)).flatten

/-- All heap locations referenced from a table. -/
def tableLocs (t : List (String × PodResourceInfo)) : List Loc :=
  (t.map (fun p => infoLocs p.2)).flatten

/-- Allocation discipline: every map cell the table references has been
allocated. -/
abbrev tableWF (s : State) : Prop :=
  ∀ l ∈ tableLocs s.podInfoMap, l < s.heap.next

/-- The write operations of the store's writer interface. -/
inductive WriteOp where
  | setContainer (podUID containerName : String) (alloc : ResourceRequirements)
  | setPodLevel (podUID : String) (alloc : ResourceRequirements)
  | setMap (podUID : String) (alloc : PodResourceInfo)
  | del (podUID containerName : String)
  | reclaim (remainingPods : List String)

/-- Apply a write operation to the store. -/
def WriteOp.apply (op : WriteOp) (s : State) : State :=
  match op with
  | .setContainer u c a => SetContainerResources s u c a
  | .setPodLevel u a => SetPodLevelResources s u a
  | .setMap u a => SetPodResourceInfoMap s u a
  | .del u c => Delete s u c
  | .reclaim r => RemoveOrphanedPods s r

/-- A pod-level spec is non-empty when some map field is non-nil and holds
at least one quantity. -/
def aggNonEmpty (h : Heap) (r : ResourceRequirements) : Bool :=
  (match r.requests with
   | none => false
   | some l => !(h.read l).isEmpty)
  ||
  (match r.limits with
   | none => false
   | some l => !(h.read l).isEmpty)

/-- The table invariant as the specification states it: every entry has a
container spec or a non-empty pod-level spec, and no entry has a
zero-length pod identity. -/
def ClaimedTableInvariant (s : State) : Prop :=
  ∀ p ∈ s.podInfoMap,
    p.1 ≠ "" ∧
    (p.2.ContainerResources ≠ [] ∨ aggNonEmpty s.heap p.2.PodLevelResources = true)

/-- States reachable from the empty store through the write operations. -/
inductive Reachable : State → Prop where
  | init : Reachable initialState
  | setContainer {s : State} (podUID containerName : String)
      (alloc : ResourceRequirements) :
      Reachable s → Reachable (SetContainerResources s podUID containerName alloc)
  | setPodLevel {s : State} (podUID : String) (alloc : ResourceRequirements) :
      Reachable s → Reachable (SetPodLevelResources s podUID alloc)
  | setMap {s : State} (podUID : String) (alloc : PodResourceInfo) :
      Reachable s → Reachable (SetPodResourceInfoMap s podUID alloc)
  | del {s : State} (podUID containerName : String) :
      Reachable s → Reachable (Delete s podUID containerName)
  | reclaim {s : State} (remainingPods : List String) :
      Reachable s → Reachable (RemoveOrphanedPods s remainingPods)

/-- States reachable from the empty store when writes go through
`SetContainerResources` with a non-empty pod identity, `Delete` and
`RemoveOrphanedPods` only. -/
inductive ReachableRestricted : State → Prop where
  | init : ReachableRestricted initialState
  | setContainer {s : State} (podUID containerName : String)
      (alloc : ResourceRequirements) :
      podUID ≠ "" → ReachableRestricted s →
      ReachableRestricted (SetContainerResources s podUID containerName alloc)
  | del {s : State} (podUID containerName : String) :
      ReachableRestricted s → ReachableRestricted (Delete s podUID containerName)
  | reclaim {s : State} (remainingPods : List String) :
      ReachableRestricted s → ReachableRestricted (RemoveOrphanedPods s remainingPods)

/-- The container spec a table currently stores for a pod and container
name, when present. -/
def storedContainerRR (t : List (String × PodResourceInfo))
    (podUID containerName : String) : Option ResourceRequirements :=
  (lookupA podUID t).bind
    (fun info => lookupA containerName info.ContainerResources)

/-- The pod-level spec a table currently stores for a pod, the zero
value when the pod is absent. -/
def storedPodLevelRR (t : List (String × PodResourceInfo))
    (podUID : String) : ResourceRequirements :=
  ((lookupA podUID t).map (fun info => info.PodLevelResources)).getD zeroRR

/-- A one-cell example heap: location 0 holds a map carrying cpu 100m. -/
def exHeap : Heap :=
  { cells := fun l => if l = 0 then [("cpu", 100)] else [], next := 1 }

/-- An example caller-held spec whose requests map is the cell at
location 0. -/
def exSpec : ResourceRequirements := ⟨some 0, none⟩

/-- An example store: the caller's map cell is allocated, the table is
still empty. -/
def exState : State := { heap := exHeap, podInfoMap := [] }

/-- An example store holding one pod with container `c` and a pod-level
spec, all referencing the cell at location 0. -/
def exState2 : State :=
  { heap := exHeap, podInfoMap := [("p", ⟨[("c", exSpec)], exSpec⟩)] }

end AllocState

namespace AllocState

theorem lookupA_insertA_self {β : Type} (k : String) (v : β) (t : List (String × β)) :
    lookupA k (insertA k v t) = some v := by
  induction t with
  | nil => simp [insertA, lookupA]
  | cons p rest ih =>
      by_cases h : k = p.1
      · simp [insertA, lookupA, h]
      · simp [insertA, lookupA, h, ih]

theorem lookupA_insertA_ne {β : Type} (k k2 : String) (v : β) (t : List (String × β))
    (h : k ≠ k2) : lookupA k (insertA k2 v t) = lookupA k t := by
  induction t with
  | nil => simp [insertA, lookupA, h]
  | cons p rest ih =>
      by_cases h2 : k2 = p.1
      · subst h2
        simp [insertA, lookupA, h]
      · by_cases h3 : k = p.1
        · simp [insertA, lookupA, h2, h3]
        · simp [insertA, lookupA, h2, h3, ih]

theorem mem_insertA {β : Type} {q : String × β} {k : String} {v : β}
    {t : List (String × β)} (h : q ∈ insertA k v t) : q = (k, v) ∨ q ∈ t := by
  induction t with
  | nil =>
      simp only [insertA, List.mem_singleton] at h
      exact Or.inl h
  | cons p rest ih =>
      by_cases h2 : k = p.1
      · simp only [insertA, if_pos h2] at h
        rcases List.mem_cons.mp h with h3 | h3
        · exact Or.inl h3
        · exact Or.inr (List.mem_cons.mpr (Or.inr h3))
      · simp only [insertA, if_neg h2] at h
        rcases List.mem_cons.mp h with h3 | h3
        · exact Or.inr (List.mem_cons.mpr (Or.inl h3))
        · rcases ih h3 with h4 | h4
          · exact Or.inl h4
          · exact Or.inr (List.mem_cons.mpr (Or.inr h4))

theorem insertA_ne_nil {β : Type} (k : String) (v : β) (t : List (String × β)) :
    insertA k v t ≠ [] := by
  cases t with
  | nil => simp [insertA]
  | cons p rest =>
      by_cases h : k = p.1 <;> simp [insertA, h]

theorem mem_eraseA {β : Type} {q : String × β} {k : String} {t : List (String × β)}
    (h : q ∈ eraseA k t) : q ∈ t := by
  induction t with
  | nil => simp [eraseA] at h
  | cons p rest ih =>
      by_cases h2 : k = p.1
      · simp only [eraseA, if_pos h2] at h
        exact List.mem_cons.mpr (Or.inr h)
      · simp only [eraseA, if_neg h2] at h
        rcases List.mem_cons.mp h with h3 | h3
        · exact List.mem_cons.mpr (Or.inl h3)
        · exact List.mem_cons.mpr (Or.inr (ih h3))

theorem lookupA_mem {β : Type} {k : String} {v : β} {t : List (String × β)}
    (h : lookupA k t = some v) : (k, v) ∈ t := by
  induction t with
  | nil => simp [lookupA] at h
  | cons p rest ih =>
      by_cases h2 : k = p.1
      · simp only [lookupA, if_pos h2] at h
        cases h
        cases p
        cases h2
        exact List.mem_cons_self _ _
      · simp only [lookupA, if_neg h2] at h
        exact List.mem_cons.mpr (Or.inr (ih h))

theorem lookupA_eq_none_of_not_mem_keys {β : Type} {k : String}
    {t : List (String × β)} (h : k ∉ keys t) : lookupA k t = none := by
  induction t with
  | nil => simp [lookupA]
  | cons p rest ih =>
      simp only [keys, List.map_cons, List.mem_cons] at h
      push_neg at h
      simp only [lookupA, if_neg h.1]
      exact ih (by simpa [keys] using h.2)

theorem lookupA_eraseA_self {β : Type} {k : String} {t : List (String × β)}
    (hnd : KeysNodup t) : lookupA k (eraseA k t) = none := by
  induction t with
  | nil => simp [eraseA, lookupA]
  | cons p rest ih =>
      simp only [KeysNodup, keys, List.map_cons, List.nodup_cons] at hnd
      by_cases h2 : k = p.1
      · simp only [eraseA, if_pos h2]
        subst h2
        exact lookupA_eq_none_of_not_mem_keys (by simpa [keys] using hnd.1)
      · simp only [eraseA, if_neg h2, lookupA, if_neg h2]
        exact ih hnd.2

theorem lookupA_eraseA_ne {β : Type} (k k2 : String) (t : List (String × β))
    (h : k ≠ k2) : lookupA k (eraseA k2 t) = lookupA k t := by
  induction t with
  | nil => simp [eraseA]
  | cons p rest ih =>
      by_cases h2 : k2 = p.1
      · subst h2
        simp [eraseA, lookupA, h]
      · by_cases h3 : k = p.1
        · simp [eraseA, lookupA, h2, h3]
        · simp [eraseA, lookupA, h2, h3, ih]

theorem mem_keys_insertA {β : Type} {x k : String} {v : β} {t : List (String × β)}
    (h : x ∈ keys (insertA k v t)) : x = k ∨ x ∈ keys t := by
  simp only [keys, List.mem_map] at h
  rcases h with ⟨q, hq, hx⟩
  rcases mem_insertA hq with h2 | h2
  · subst h2
    exact Or.inl hx.symm
  · exact Or.inr (by
      simp only [keys, List.mem_map]
      exact ⟨q, h2, hx⟩)

theorem KeysNodup_insertA {β : Type} (k : String) (v : β) {t : List (String × β)}
    (hnd : KeysNodup t) : KeysNodup (insertA k v t) := by
  induction t with
  | nil => simp [insertA, KeysNodup, keys]
  | cons p rest ih =>
      simp only [KeysNodup, keys, List.map_cons, List.nodup_cons] at hnd
      by_cases h2 : k = p.1
      · subst h2
        simp only [insertA, if_pos rfl]
        simpa [KeysNodup, keys] using hnd
      · simp only [insertA, if_neg h2, KeysNodup, keys, List.map_cons, List.nodup_cons]
        refine ⟨fun hmem => ?_, ih hnd.2⟩
        rcases mem_keys_insertA hmem with h3 | h3
        · exact h2 (by rw [h3])
        · exact hnd.1 h3

theorem KeysNodup_eraseA {β : Type} (k : String) {t : List (String × β)}
    (hnd : KeysNodup t) : KeysNodup (eraseA k t) := by
  induction t with
  | nil => simp [eraseA, KeysNodup, keys]
  | cons p rest ih =>
      simp only [KeysNodup, keys, List.map_cons, List.nodup_cons] at hnd
      by_cases h2 : k = p.1
      · simp only [eraseA, if_pos h2]
        exact hnd.2
      · simp only [eraseA, if_neg h2, KeysNodup, keys, List.map_cons, List.nodup_cons]
        refine ⟨fun hmem => ?_, ih hnd.2⟩
        simp only [keys, List.mem_map] at hmem
        rcases hmem with ⟨q, hq, hx⟩
        exact hnd.1 (by
          simp only [keys, List.mem_map]
          exact ⟨q, mem_eraseA hq, hx⟩)

theorem lookupA_filter_pos {β : Type} (k : String) (S : List String)
    (t : List (String × β)) (h : S.contains k = true) :
    lookupA k (t.filter (fun p => S.contains p.1)) = lookupA k t := by
  have hk : k ∈ S := by simpa using h
  induction t with
  | nil => simp [lookupA]
  | cons p rest ih =>
      by_cases h2 : k = p.1
      · subst h2
        simp [List.filter_cons, hk, lookupA]
      · by_cases h3 : p.1 ∈ S
        · simp only [List.filter_cons]
          rw [if_pos (by simpa using h3)]
          simp only [lookupA, if_neg h2]
          exact ih
        · simp only [List.filter_cons]
          rw [if_neg (by simpa using h3)]
          rw [ih]
          simp [lookupA, h2]

theorem lookupA_filter_neg {β : Type} (k : String) (S : List String)
    (t : List (String × β)) (h : S.contains k = false) :
    lookupA k (t.filter (fun p => S.contains p.1)) = none := by
  have hk : k ∉ S := by simpa using h
  induction t with
  | nil => simp [lookupA]
  | cons p rest ih =>
      by_cases h2 : k = p.1
      · subst h2
        simp only [List.filter_cons]
        rw [if_neg (by simpa using hk)]
        exact ih
      · by_cases h3 : p.1 ∈ S
        · simp only [List.filter_cons]
          rw [if_pos (by simpa using h3)]
          simp only [lookupA, if_neg h2]
          exact ih
        · simp only [List.filter_cons]
          rw [if_neg (by simpa using h3)]
          exact ih

theorem filter_idem {β : Type} (q : β → Bool) (t : List β) :
    (t.filter q).filter q = t.filter q := by
  induction t with
  | nil => simp
  | cons p rest ih =>
      by_cases h : q p
      · simp [List.filter_cons, h, ih]
      · simp [List.filter_cons, h, ih]

end AllocState

namespace AllocState

theorem Heap.read_write_ne (h : Heap) {l l2 : Loc} (v : RListVal) (hne : l2 ≠ l) :
    (h.write l v).read l2 = h.read l2 := by
  simp [Heap.write, Heap.read, hne]

theorem Heap.write_next (h : Heap) (l : Loc) (v : RListVal) :
    (h.write l v).next = h.next := rfl

theorem copyField_next_ge (h : Heap) (o : Option Loc) :
    h.next ≤ (copyField h o).1.next := by
  cases o with
  | none => exact Nat.le_refl _
  | some l => exact Nat.le_succ _

theorem copyField_read_lt (h : Heap) (o : Option Loc) {l : Loc} (hl : l < h.next) :
    (copyField h o).1.read l = h.read l := by
  cases o with
  | none => rfl
  | some l2 =>
      simp only [copyField, Heap.alloc, Heap.read]
      rw [if_neg (Nat.ne_of_lt hl)]

theorem copyField_fresh (h : Heap) (o : Option Loc) :
    ∀ l ∈ (copyField h o).2.toList, h.next ≤ l := by
  cases o with
  | none => simp [copyField]
  | some l2 =>
      intro l hl
      simp only [copyField, Option.toList_some, List.mem_singleton] at hl
      exact Nat.le_of_eq hl.symm

theorem deepCopy_next_ge (h : Heap) (r : ResourceRequirements) :
    h.next ≤ (r.deepCopy h).1.next := by
  exact Nat.le_trans (copyField_next_ge h r.requests)
    (copyField_next_ge (copyField h r.requests).1 r.limits)

theorem deepCopy_read_lt (h : Heap) (r : ResourceRequirements) {l : Loc}
    (hl : l < h.next) :
    (r.deepCopy h).1.read l = h.read l := by
  have h2 : l < (copyField h r.requests).1.next :=
    Nat.lt_of_lt_of_le hl (copyField_next_ge h r.requests)
  calc (r.deepCopy h).1.read l
      = (copyField (copyField h r.requests).1 r.limits).1.read l := rfl
    _ = (copyField h r.requests).1.read l :=
        copyField_read_lt (copyField h r.requests).1 r.limits h2
    _ = h.read l := copyField_read_lt h r.requests hl

theorem deepCopy_locs_ge (h : Heap) (r : ResourceRequirements) :
    ∀ l ∈ (r.deepCopy h).2.locs, h.next ≤ l := by
  intro l hl
  have hsplit :
      l ∈ (copyField h r.requests).2.toList ∨
        l ∈ (copyField (copyField h r.requests).1 r.limits).2.toList := by
    simpa [ResourceRequirements.deepCopy, ResourceRequirements.locs] using hl
  rcases hsplit with h2 | h2
  · exact copyField_fresh h r.requests l h2
  · exact Nat.le_trans (copyField_next_ge h r.requests)
      (copyField_fresh (copyField h r.requests).1 r.limits l h2)

theorem resolveRR_congr {h h2 : Heap} (r : ResourceRequirements)
    (hreads : ∀ l ∈ r.locs, h2.read l = h.read l) :
    resolveRR h2 r = resolveRR h r := by
  rcases r with ⟨oreq, olim⟩
  cases oreq with
  | none =>
      cases olim with
      | none => rfl
      | some ll =>
          have := hreads ll (by simp [ResourceRequirements.locs])
          simp [resolveRR, this]
  | some lr =>
      have hr := hreads lr (by simp [ResourceRequirements.locs])
      cases olim with
      | none => simp [resolveRR, hr]
      | some ll =>
          have hlm := hreads ll (by simp [ResourceRequirements.locs])
          simp [resolveRR, hr, hlm]

theorem deepCopy_resolve (h : Heap) (r : ResourceRequirements)
    (hr : ∀ l ∈ r.locs, l < h.next) :
    resolveRR (r.deepCopy h).1 (r.deepCopy h).2 = resolveRR h r := by
  rcases r with ⟨oreq, olim⟩
  cases oreq with
  | none =>
      cases olim with
      | none => rfl
      | some ll =>
          have hll : ll < h.next := hr ll (by simp [ResourceRequirements.locs])
          simp [ResourceRequirements.deepCopy, copyField, Heap.alloc,
            Heap.read, resolveRR, Option.map]
  | some lr =>
      have hlr : lr < h.next := hr lr (by simp [ResourceRequirements.locs])
      cases olim with
      | none =>
          simp [ResourceRequirements.deepCopy, copyField, Heap.alloc,
            Heap.read, resolveRR, Option.map]
      | some ll =>
          have hll : ll < h.next := hr ll (by simp [ResourceRequirements.locs])
          simp [ResourceRequirements.deepCopy, copyField, Heap.alloc,
            Heap.read, resolveRR, Option.map, Nat.ne_of_lt hll, Nat.ne_of_lt hlr]

end AllocState

namespace AllocState

theorem storedContainerRR_locs {t : List (String × PodResourceInfo)}
    {w c : String} {rr : ResourceRequirements}
    (h : storedContainerRR t w c = some rr) :
    ∀ x ∈ rr.locs, x ∈ tableLocs t := by
  intro x hx
  rcases Option.bind_eq_some.mp h with ⟨info, hinfo, hrr⟩
  have hwmem : (w, info) ∈ t := lookupA_mem hinfo
  have hcmem : (c, rr) ∈ info.ContainerResources := lookupA_mem hrr
  have hinfo2 : x ∈ infoLocs info := by
    apply List.mem_append.mpr
    refine Or.inr (List.mem_flatten.mpr ?_)
    exact ⟨rr.locs, List.mem_map.mpr ⟨(c, rr), hcmem, rfl⟩, hx⟩
  exact List.mem_flatten.mpr
    ⟨infoLocs info, List.mem_map.mpr ⟨(w, info), hwmem, rfl⟩, hinfo2⟩

theorem WriteOp_apply_heap (op : WriteOp) (s : State) : (op.apply s).heap = s.heap := by
  cases op with
  | setContainer u c a => rfl
  | setPodLevel u a => rfl
  | setMap u a => rfl
  | reclaim r => rfl
  | del u c =>
      show (Delete s u c).heap = s.heap
      by_cases hc : c = ""
      · simp [Delete, hc]
      · simp only [Delete, if_neg hc]
        unfold deleteContainer
        cases h2 : lookupA u s.podInfoMap with
        | none => rfl
        | some info =>
            by_cases he : (eraseA c info.ContainerResources).isEmpty
            · simp [he]
            · simp [he]

theorem readContainerResources_eq (h : Heap) (t : List (String × PodResourceInfo))
    (w c : String)
    (hs : ∀ x ∈ ((storedContainerRR t w c).getD zeroRR).locs, x < h.next) :
    readContainerResources ⟨h, t⟩ w c
      = (resolveRR h ((storedContainerRR t w c).getD zeroRR),
         (storedContainerRR t w c).isSome) := by
  show (resolveRR (((storedContainerRR t w c).getD zeroRR).deepCopy h).1
          (((storedContainerRR t w c).getD zeroRR).deepCopy h).2,
        (storedContainerRR t w c).isSome) = _
  rw [deepCopy_resolve h _ hs]

theorem readPodLevelResources_eq (h : Heap) (t : List (String × PodResourceInfo))
    (w : String)
    (hs : ∀ x ∈ (storedPodLevelRR t w).locs, x < h.next) :
    readPodLevelResources ⟨h, t⟩ w = resolveRR h (storedPodLevelRR t w) := by
  show resolveRR ((storedPodLevelRR t w).deepCopy h).1
        ((storedPodLevelRR t w).deepCopy h).2 = _
  exact deepCopy_resolve h _ hs

end AllocState

namespace CgroupEnc

theorem MilliCPUToShares_mono {m1 m2 : Nat} (h : m1 ≤ m2) :
    MilliCPUToShares m1 ≤ MilliCPUToShares m2 := by
  have hd : m1 * SharesPerCPU / MilliCPUToCPU ≤ m2 * SharesPerCPU / MilliCPUToCPU :=
    Nat.div_le_div_right (Nat.mul_le_mul_right _ h)
  unfold MilliCPUToShares
  simp only [MinShares, MaxShares, SharesPerCPU, MilliCPUToCPU] at hd ⊢
  split_ifs <;> omega

theorem sharesToWeight_mono {s1 s2 : Nat} (h : s1 ≤ s2) :
    sharesToWeight s1 ≤ sharesToWeight s2 :=
  Nat.add_le_add_left
    (Nat.div_le_div_right (Nat.mul_le_mul_right _ (Nat.sub_le_sub_right h 2))) 1

/-- C3: the `cpu.weight` expectation is the composition of the two
truncating integer-division steps — millicores to shares, then
`1 + ((shares − 2) × 9999) / 262142` — with shares 102 and weight 4 for a
100m request; fusing the two divisions into one (skipping the truncated
intermediate shares value) changes the result, witnessed at 28m. -/
theorem cpu_weight_two_step_composition :
    MilliCPUToShares 100 = 102
    ∧ expectedPodCPUWeight 100 = sharesToWeight (MilliCPUToShares 100)
    ∧ sharesToWeight (MilliCPUToShares 100)
        = 1 + (MilliCPUToShares 100 - 2) * 9999 / 262142
    ∧ expectedPodCPUWeight 100 = 4
    ∧ fusedCPUWeight 28 ≠ expectedPodCPUWeight 28 := by
  exact ⟨by decide, rfl, rfl, by decide, by decide⟩

/-- C1 counterexample: on the source test case "Guaranteed QoS pod with
container resources" (aggregate 100m/100m and 100Mi/100Mi, both containers
requesting 50m/50Mi with limits 100m/100Mi), the classification required
by the claim — Guaranteed only when request equals limit at every scope,
container scopes included — yields Burstable, while the source records
Guaranteed as the derived class. -/
theorem qos_every_scope_contradicts_test_table :
    specEveryScopeQoS tcGuaranteedWithContainers.podResources
        tcGuaranteedWithContainers.containers
      = PodQOSClass.Burstable
    ∧ tcGuaranteedWithContainers.expectedQoS = PodQOSClass.Guaranteed
    ∧ specEveryScopeQoS tcGuaranteedWithContainers.podResources
        tcGuaranteedWithContainers.containers
      ≠ tcGuaranteedWithContainers.expectedQoS := by
  exact ⟨by decide, by decide, by decide⟩

/-- C1 amended: when the aggregate (pod-level) spec is present, the QoS
class is derived from the aggregate scope alone — Guaranteed exactly when
both resources have request and limit present and equal there, Burstable
when that fails but the aggregate specifies something — and container
specs play no part; this matches all six recorded source test cases. -/
theorem qos_aggregate_scope_matches_test_table :
    (podLevelResourcesTests.all
      (fun tc => podQoS tc.podResources == tc.expectedQoS)) = true := by
  decide

/-- C9: the composed millicores-to-shares-to-weight conversion is
monotone: a smaller CPU request never yields a larger weight (stated for
requests up to the 256-core maximum that keeps shares below the
ceiling). -/
theorem cpu_weight_monotone (r1 r2 : Nat) (h : r1 < r2) (hmax : r2 ≤ 256000) :
    expectedPodCPUWeight r1 ≤ expectedPodCPUWeight r2 :=
  sharesToWeight_mono (MilliCPUToShares_mono (Nat.le_of_lt h))

/-- C9 witness: the monotonicity theorem applied at 100m and 200m. -/
theorem cpu_weight_monotone_witness :
    expectedPodCPUWeight 100 ≤ expectedPodCPUWeight 200 :=
  cpu_weight_monotone 100 200 (by decide) (by decide)

/-- C2: limit inheritance — a container with no CPU (memory) limit of its
own is enforced with the quota line (byte ceiling) computed from the
aggregate's limit; a container with its own limit is enforced from its
own, whatever the aggregate holds; effective requests are always the
container's own, never inherited. -/
theorem container_limit_inheritance (pod pod2 : ResourceInfo) (c d : ContainerInfo)
    (l m lc mc : Nat)
    (hc1 : (containerSpec c).CPULim = none) (hc2 : (containerSpec c).MemLim = none)
    (hp1 : pod.CPULim = some l) (hp2 : pod.MemLim = some m)
    (hd1 : (containerSpec d).CPULim = some lc) (hd2 : (containerSpec d).MemLim = some mc) :
    containerCPUMax c pod = some (quotaLine l)
    ∧ containerMemMax c pod = some (memLine m)
    ∧ containerCPUMax d pod = some (quotaLine lc)
    ∧ containerMemMax d pod = some (memLine mc)
    ∧ containerCPUMax d pod2 = containerCPUMax d pod
    ∧ containerMemMax d pod2 = containerMemMax d pod
    ∧ effectiveCPURequest c pod = (containerSpec c).CPUReq
    ∧ effectiveMemRequest c pod = (containerSpec c).MemReq := by
  refine ⟨?_, ?_, ?_, ?_, ?_, ?_, rfl, rfl⟩
  · simp [containerCPUMax, inheritedCPULimit, hc1, hp1]
  · simp [containerMemMax, inheritedMemLimit, hc2, hp2]
  · simp [containerCPUMax, inheritedCPULimit, hd1]
  · simp [containerMemMax, inheritedMemLimit, hd2]
  · simp [containerCPUMax, inheritedCPULimit, hd1]
  · simp [containerMemMax, inheritedMemLimit, hd2]

/-- C2 witness: the spec's concrete case — aggregate limit cpu 100m plus
memory 100Mi, container `c2` with no spec of its own — yields the
inherited quota line "10000 100000" and memory ceiling "104857600", while
container `c1` with its own equal limits is enforced from its own. -/
theorem container_limit_inheritance_witness :
    containerCPUMax ⟨"c2", none⟩ ⟨none, some 100, none, some 104857600⟩
        = some "10000 100000"
    ∧ containerMemMax ⟨"c2", none⟩ ⟨none, some 100, none, some 104857600⟩
        = some "104857600"
    ∧ containerCPUMax ⟨"c1", some ⟨none, some 100, none, some 104857600⟩⟩
        ⟨none, some 100, none, some 104857600⟩
        = some "10000 100000" := by
  have h := container_limit_inheritance
    ⟨none, some 100, none, some 104857600⟩ ⟨none, none, none, none⟩
    ⟨"c2", none⟩ ⟨"c1", some ⟨none, some 100, none, some 104857600⟩⟩
    100 104857600 100 104857600 rfl rfl rfl rfl rfl rfl
  exact ⟨h.1.trans (by decide), h.2.1.trans (by decide), h.2.2.1.trans (by decide)⟩

end CgroupEnc

namespace AllocState

theorem delete_last_container {Y : State} {w c : String} {r agg : ResourceRequirements}
    (hnd : KeysNodup Y.podInfoMap) (hc : c ≠ "")
    (hw : lookupA w Y.podInfoMap = some ⟨[(c, r)], agg⟩) :
    lookupA w (Delete Y w c).podInfoMap = none := by
  simp [Delete, if_neg hc, deleteContainer, hw, eraseA, lookupA_eraseA_self hnd]

/-- C6: delete semantics with cascading cleanup — deleting with an empty
container name removes the whole entry; deleting one of two containers
removes only that container's spec and keeps the aggregate; deleting the
remaining one then removes the whole entry even though the aggregate spec
is still set. -/
theorem delete_cascading_semantics (st : State) (w c1 c2 : String)
    (r1 r2 agg : ResourceRequirements)
    (hnd : KeysNodup st.podInfoMap) (h1 : c1 ≠ "") (h2 : c2 ≠ "") (hcc : c1 ≠ c2)
    (hw : lookupA w st.podInfoMap = some ⟨[(c1, r1), (c2, r2)], agg⟩) :
    lookupA w (Delete st w "").podInfoMap = none
    ∧ lookupA w (Delete st w c1).podInfoMap = some ⟨[(c2, r2)], agg⟩
    ∧ lookupA w (Delete (Delete st w c1) w c2).podInfoMap = none := by
  have hfst : lookupA w (Delete st w "").podInfoMap = none := by
    simp only [Delete, if_pos rfl]
    exact lookupA_eraseA_self hnd
  have hmap1 : (Delete st w c1).podInfoMap
      = insertA w ⟨[(c2, r2)], agg⟩ st.podInfoMap := by
    simp [Delete, if_neg h1, deleteContainer, hw, eraseA]
  have hsnd : lookupA w (Delete st w c1).podInfoMap = some ⟨[(c2, r2)], agg⟩ := by
    rw [hmap1]
    exact lookupA_insertA_self w _ st.podInfoMap
  have hnd1 : KeysNodup (Delete st w c1).podInfoMap := by
    rw [hmap1]
    exact KeysNodup_insertA w _ hnd
  exact ⟨hfst, hsnd, delete_last_container hnd1 h2 hsnd⟩

/-- C6 witness: the cascading-delete theorem applied to a concrete table
holding one pod with containers `a` and `b` and an aggregate spec. -/
theorem delete_cascading_semantics_witness :
    lookupA "p" (Delete ⟨emptyHeap, [("p", ⟨[("a", zeroRR), ("b", zeroRR)], zeroRR⟩)]⟩
        "p" "").podInfoMap = none
    ∧ lookupA "p" (Delete ⟨emptyHeap, [("p", ⟨[("a", zeroRR), ("b", zeroRR)], zeroRR⟩)]⟩
        "p" "a").podInfoMap = some ⟨[("b", zeroRR)], zeroRR⟩
    ∧ lookupA "p" (Delete (Delete ⟨emptyHeap,
        [("p", ⟨[("a", zeroRR), ("b", zeroRR)], zeroRR⟩)]⟩ "p" "a") "p" "b").podInfoMap
      = none :=
  delete_cascading_semantics _ "p" "a" "b" zeroRR zeroRR zeroRR
    (by decide) (by decide) (by decide) (by decide) (by decide)

/-- C7: orphan reclamation removes exactly the entries whose pod identity
is outside the live set, leaves entries inside it unchanged, and is
idempotent. -/
theorem remove_orphaned_pods_exact_and_idempotent (st : State) (S : List String)
    (w1 w2 : String) (h1 : S.contains w1 = true) (h2 : S.contains w2 = false) :
    lookupA w1 (RemoveOrphanedPods st S).podInfoMap = lookupA w1 st.podInfoMap
    ∧ lookupA w2 (RemoveOrphanedPods st S).podInfoMap = none
    ∧ RemoveOrphanedPods (RemoveOrphanedPods st S) S = RemoveOrphanedPods st S := by
  refine ⟨lookupA_filter_pos w1 S st.podInfoMap h1,
          lookupA_filter_neg w2 S st.podInfoMap h2, ?_⟩
  exact congrArg (State.mk st.heap)
    (filter_idem (fun p => S.contains p.1) st.podInfoMap)

/-- C7 witness: the reclamation theorem applied to a concrete two-pod
table with live set containing only pod `p`. -/
theorem remove_orphaned_pods_witness :
    lookupA "p" (RemoveOrphanedPods ⟨emptyHeap,
        [("p", ⟨[("a", zeroRR)], zeroRR⟩), ("q", ⟨[("b", zeroRR)], zeroRR⟩)]⟩
        ["p"]).podInfoMap
      = lookupA "p" [("p", (⟨[("a", zeroRR)], zeroRR⟩ : PodResourceInfo)),
          ("q", ⟨[("b", zeroRR)], zeroRR⟩)]
    ∧ lookupA "q" (RemoveOrphanedPods ⟨emptyHeap,
        [("p", ⟨[("a", zeroRR)], zeroRR⟩), ("q", ⟨[("b", zeroRR)], zeroRR⟩)]⟩
        ["p"]).podInfoMap = none
    ∧ RemoveOrphanedPods (RemoveOrphanedPods ⟨emptyHeap,
        [("p", ⟨[("a", zeroRR)], zeroRR⟩), ("q", ⟨[("b", zeroRR)], zeroRR⟩)]⟩ ["p"]) ["p"]
      = RemoveOrphanedPods ⟨emptyHeap,
        [("p", ⟨[("a", zeroRR)], zeroRR⟩), ("q", ⟨[("b", zeroRR)], zeroRR⟩)]⟩ ["p"] :=
  remove_orphaned_pods_exact_and_idempotent _ ["p"] "p" "q" (by decide) (by decide)

/-- C10: on a pod entry whose container map is empty, deleting any
non-empty container name — present or not — removes the whole entry,
aggregate spec included, because the cascading-cleanup check fires on the
empty map. -/
theorem delete_any_container_on_empty_map_removes_entry (st : State) (w c : String)
    (info : PodResourceInfo) (hnd : KeysNodup st.podInfoMap) (hc : c ≠ "")
    (hw : lookupA w st.podInfoMap = some info)
    (hempty : info.ContainerResources = []) :
    lookupA w (Delete st w c).podInfoMap = none := by
  simp only [Delete, if_neg hc, deleteContainer, hw, hempty, eraseA, List.isEmpty_nil,
    if_pos rfl]
  exact lookupA_eraseA_self hnd

/-- C10 witness: a pod entry created with an aggregate spec only (empty
container map); deleting the never-present container name `x` removes the
entry. -/
theorem delete_on_empty_map_witness :
    lookupA "p" (Delete ⟨emptyHeap, [("p", ⟨[], zeroRR⟩)]⟩ "p" "x").podInfoMap = none :=
  delete_any_container_on_empty_map_removes_entry _ "p" "x" ⟨[], zeroRR⟩
    (by decide) (by decide) (by decide) (by decide)

/-- C8 counterexample: two states reachable by single writes from the
empty store violate the claimed invariant — `SetPodLevelResources` with
the zero spec retains an entry with no containers and an empty aggregate,
and `SetContainerResources` accepts a zero-length pod identity. -/
theorem table_invariant_violated_by_writes :
    (Reachable (SetPodLevelResources initialState "p" zeroRR)
      ∧ ¬ ClaimedTableInvariant (SetPodLevelResources initialState "p" zeroRR))
    ∧ (Reachable (SetContainerResources initialState "" "c" zeroRR)
      ∧ ¬ ClaimedTableInvariant (SetContainerResources initialState "" "c" zeroRR)) := by
  refine ⟨⟨Reachable.setPodLevel "p" zeroRR Reachable.init, ?_⟩,
          ⟨Reachable.setContainer "" "c" zeroRR Reachable.init, ?_⟩⟩
  · intro h
    have hm : ("p", (⟨[], zeroRR⟩ : PodResourceInfo)) ∈
        (SetPodLevelResources initialState "p" zeroRR).podInfoMap := by decide
    rcases (h _ hm).2 with hx | hx
    · exact hx rfl
    · simp [aggNonEmpty, zeroRR] at hx
  · intro h
    have hm : ("", (⟨[("c", zeroRR)], zeroRR⟩ : PodResourceInfo)) ∈
        (SetContainerResources initialState "" "c" zeroRR).podInfoMap := by decide
    exact (h _ hm).1 rfl

theorem restricted_inv_aux {s : State} (h : ReachableRestricted s) :
    ∀ p ∈ s.podInfoMap, p.1 ≠ "" ∧ p.2.ContainerResources ≠ [] := by
  induction h with
  | init =>
      intro p hp
      simp [initialState, NewStateMemory] at hp
  | @setContainer s1 podUID containerName alloc hne hs ih =>
      intro p hp
      simp only [SetContainerResources] at hp
      rcases mem_insertA hp with heq | hmem
      · rw [heq]
        exact ⟨hne, insertA_ne_nil _ _ _⟩
      · exact ih p hmem
  | @del s1 podUID containerName hs ih =>
      intro p hp
      by_cases hc : containerName = ""
      · simp only [Delete, if_pos hc] at hp
        exact ih p (mem_eraseA hp)
      · simp only [Delete, if_neg hc] at hp
        rcases hlk : lookupA podUID s1.podInfoMap with _ | info
        · rw [deleteContainer, hlk] at hp
          exact ih p hp
        · rw [deleteContainer, hlk] at hp
          by_cases he : (eraseA containerName info.ContainerResources).isEmpty
          · simp only [if_pos he] at hp
            exact ih p (mem_eraseA hp)
          · simp only [if_neg he] at hp
            rcases mem_insertA hp with heq | hmem
            · have hpodne : podUID ≠ "" := (ih (podUID, info) (lookupA_mem hlk)).1
              rw [heq]
              refine ⟨hpodne, fun hnil => ?_⟩
              have hnil2 : eraseA containerName info.ContainerResources = [] := hnil
              exact he (by rw [hnil2]; rfl)
            · exact ih p hmem
  | @reclaim s1 remainingPods hs ih =>
      intro p hp
      exact ih p (List.mem_filter.mp hp).1

/-- C8 amended: the claimed invariant is not enforced by the write
operations in general (see the counterexample), but it holds on every
state reachable from the empty store through `SetContainerResources` with
non-empty pod identities, `Delete`, and `RemoveOrphanedPods`: every entry
then has a non-empty identity and at least one container spec. -/
theorem table_invariant_restricted_ops (s : State) (p : String × PodResourceInfo)
    (h : ReachableRestricted s) (hp : p ∈ s.podInfoMap) :
    p.1 ≠ ""
    ∧ (p.2.ContainerResources ≠ []
        ∨ aggNonEmpty s.heap p.2.PodLevelResources = true) := by
  rcases restricted_inv_aux h p hp with ⟨h1, h2⟩
  exact ⟨h1, Or.inl h2⟩

/-- C8 amended witness: the restricted invariant at the store after one
`SetContainerResources` write. -/
theorem table_invariant_restricted_ops_witness :
    "p" ≠ ""
    ∧ ([("c", zeroRR)] ≠ ([] : List (String × ResourceRequirements))
        ∨ aggNonEmpty (SetContainerResources initialState "p" "c" zeroRR).heap zeroRR
          = true) :=
  table_invariant_restricted_ops (SetContainerResources initialState "p" "c" zeroRR)
    ("p", ⟨[("c", zeroRR)], zeroRR⟩)
    (ReachableRestricted.setContainer "p" "c" zeroRR (by decide) ReachableRestricted.init)
    (by decide)

end AllocState

namespace AllocState

theorem readContainer_unaffected_by_fresh_write (h1 : Heap)
    (t : List (String × PodResourceInfo)) (w c : String) (l : Loc) (v : RListVal)
    (hwf : ∀ x ∈ tableLocs t, x < h1.next) (hl : h1.next ≤ l) :
    readContainerResources
        ⟨(((storedContainerRR t w c).getD zeroRR).deepCopy h1).1.write l v, t⟩ w c
      = readContainerResources ⟨h1, t⟩ w c := by
  have hsl : ∀ x ∈ ((storedContainerRR t w c).getD zeroRR).locs, x < h1.next := by
    cases hsto : storedContainerRR t w c with
    | none => simp [zeroRR, ResourceRequirements.locs]
    | some rr =>
        intro x hx
        exact hwf x (storedContainerRR_locs hsto x (by simpa using hx))
  have hreads : ∀ x ∈ ((storedContainerRR t w c).getD zeroRR).locs,
      ((((storedContainerRR t w c).getD zeroRR).deepCopy h1).1.write l v).read x
        = h1.read x := by
    intro x hx
    have hxlt : x < h1.next := hsl x hx
    rw [Heap.read_write_ne _ _ (Nat.ne_of_lt (Nat.lt_of_lt_of_le hxlt hl))]
    exact deepCopy_read_lt h1 _ hxlt
  have hnext2 : h1.next
      ≤ ((((storedContainerRR t w c).getD zeroRR).deepCopy h1).1.write l v).next := by
    rw [Heap.write_next]
    exact deepCopy_next_ge h1 _
  have hs2 : ∀ x ∈ ((storedContainerRR t w c).getD zeroRR).locs,
      x < ((((storedContainerRR t w c).getD zeroRR).deepCopy h1).1.write l v).next :=
    fun x hx => Nat.lt_of_lt_of_le (hsl x hx) hnext2
  rw [readContainerResources_eq _ t w c hs2, readContainerResources_eq h1 t w c hsl]
  rw [resolveRR_congr ((storedContainerRR t w c).getD zeroRR) hreads]

theorem readPodLevel_unaffected_by_fresh_write (h1 : Heap)
    (t : List (String × PodResourceInfo)) (w : String) (l : Loc) (v : RListVal)
    (hs : ∀ x ∈ (storedPodLevelRR t w).locs, x < h1.next) (hl : h1.next ≤ l) :
    readPodLevelResources
        ⟨((storedPodLevelRR t w).deepCopy h1).1.write l v, t⟩ w
      = readPodLevelResources ⟨h1, t⟩ w := by
  have hreads : ∀ x ∈ (storedPodLevelRR t w).locs,
      (((storedPodLevelRR t w).deepCopy h1).1.write l v).read x = h1.read x := by
    intro x hx
    have hxlt : x < h1.next := hs x hx
    rw [Heap.read_write_ne _ _ (Nat.ne_of_lt (Nat.lt_of_lt_of_le hxlt hl))]
    exact deepCopy_read_lt h1 _ hxlt
  have hnext2 : h1.next ≤ (((storedPodLevelRR t w).deepCopy h1).1.write l v).next := by
    rw [Heap.write_next]
    exact deepCopy_next_ge h1 _
  have hs2 : ∀ x ∈ (storedPodLevelRR t w).locs,
      x < (((storedPodLevelRR t w).deepCopy h1).1.write l v).next :=
    fun x hx => Nat.lt_of_lt_of_le (hs x hx) hnext2
  rw [readPodLevelResources_eq _ t w hs2, readPodLevelResources_eq h1 t w hs]
  rw [resolveRR_congr (storedPodLevelRR t w) hreads]

theorem storedPodLevel_after_set (st : State) (w : String) (s2 : ResourceRequirements) :
    storedPodLevelRR (SetPodLevelResources st w s2).podInfoMap w = s2 := by
  simp [storedPodLevelRR, SetPodLevelResources, lookupA_insertA_self]

end AllocState

namespace AllocState

/-- C4 counterexample: `SetContainerResources` stores the caller's spec
without copying its maps, so the caller retains a mutable handle into the
table — after setting, mutating the caller's own map cell changes what a
later `GetContainerResources` returns. -/
theorem set_container_aliases_caller_map :
    readContainerResources
        { heap := Heap.write (SetContainerResources exState "p" "c" exSpec).heap
            0 [("cpu", 999)],
          podInfoMap := (SetContainerResources exState "p" "c" exSpec).podInfoMap } "p" "c"
      ≠ readContainerResources (SetContainerResources exState "p" "c" exSpec) "p" "c"
    ∧ (readContainerResources
        { heap := Heap.write (SetContainerResources exState "p" "c" exSpec).heap
            0 [("cpu", 999)],
          podInfoMap := (SetContainerResources exState "p" "c" exSpec).podInfoMap }
        "p" "c").1.1
      = some [("cpu", 999)]
    ∧ (readContainerResources (SetContainerResources exState "p" "c" exSpec) "p" "c").1.1
      = some [("cpu", 100)] := by
  exact ⟨by decide, by decide, by decide⟩

/-- C4 amended: the no-alias guarantee holds for returned values — the
result of `GetContainerResources` is a fresh deep copy, and mutating it
leaves every later identical read unchanged — but not for values passed
into the setters, which are stored with their maps shared (see the
counterexample). -/
theorem get_container_read_isolation (st : State) (w c : String) (l : Loc) (v : RListVal)
    (hwf : tableWF st)
    (hl : l ∈ (GetContainerResources st w c).2.1.locs) :
    readContainerResources
        { heap := Heap.write (GetContainerResources st w c).1.heap l v,
          podInfoMap := (GetContainerResources st w c).1.podInfoMap } w c
      = readContainerResources st w c := by
  have hl2 : st.heap.next ≤ l :=
    deepCopy_locs_ge st.heap ((storedContainerRR st.podInfoMap w c).getD zeroRR) l hl
  exact readContainer_unaffected_by_fresh_write st.heap st.podInfoMap w c l v hwf hl2

/-- C4 amended witness: the read-isolation theorem at a concrete store
holding one pod whose container spec lives at heap location 0; the copy
returned by the getter lives at location 1, and overwriting it does not
change the next read. -/
theorem get_container_read_isolation_witness :
    readContainerResources
        { heap := Heap.write (GetContainerResources exState2 "p" "c").1.heap
            1 [("cpu", 999)],
          podInfoMap := (GetContainerResources exState2 "p" "c").1.podInfoMap } "p" "c"
      = readContainerResources exState2 "p" "c" :=
  get_container_read_isolation exState2 "p" "c" 1 [("cpu", 999)] (by decide) (by decide)

/-- C5: read-side copy isolation — after `SetPodLevelResources(w, s)`,
mutating the deep copy returned by `GetPodLevelResources(w)` does not
change what a following identical call returns; every location in a value
returned by `GetContainerResources` is freshly allocated (disjoint from
the table under the allocation discipline); and the snapshot returned by
`GetPodResourceInfoMap` resolves to the same values after any subsequent
write operation. -/
theorem read_side_copy_isolation (st : State) (w c : String) (s : ResourceRequirements)
    (l l2 : Loc) (v : RListVal) (op : WriteOp)
    (hs : ∀ x ∈ s.locs, x < st.heap.next)
    (hl : l ∈ (GetPodLevelResources (SetPodLevelResources st w s) w).2.locs)
    (hl2 : l2 ∈ (GetContainerResources st w c).2.1.locs) :
    readPodLevelResources
        { heap := Heap.write
            (GetPodLevelResources (SetPodLevelResources st w s) w).1.heap l v,
          podInfoMap :=
            (GetPodLevelResources (SetPodLevelResources st w s) w).1.podInfoMap } w
      = readPodLevelResources (SetPodLevelResources st w s) w
    ∧ st.heap.next ≤ l2
    ∧ resolveTable ((op.apply (GetPodResourceInfoMap st).1).heap)
          (GetPodResourceInfoMap st).2
      = resolveTable (GetPodResourceInfoMap st).1.heap (GetPodResourceInfoMap st).2 := by
  refine ⟨?_,
    deepCopy_locs_ge st.heap ((storedContainerRR st.podInfoMap w c).getD zeroRR) l2 hl2,
    ?_⟩
  · have hs2 : ∀ x ∈ (storedPodLevelRR (SetPodLevelResources st w s).podInfoMap w).locs,
        x < st.heap.next := by
      rw [storedPodLevel_after_set st w s]
      exact hs
    have hl3 : st.heap.next ≤ l :=
      deepCopy_locs_ge st.heap
        (storedPodLevelRR (SetPodLevelResources st w s).podInfoMap w) l hl
    exact readPodLevel_unaffected_by_fresh_write st.heap
      (SetPodLevelResources st w s).podInfoMap w l v hs2 hl3
  · rw [WriteOp_apply_heap]

/-- C5 witness: the isolation theorem at the concrete one-pod store: the
caller's spec lives at location 0, the returned copy at location 1;
overwriting location 1 leaves the next read unchanged, and the snapshot
is unaffected by a subsequent delete. -/
theorem read_side_copy_isolation_witness :
    readPodLevelResources
        { heap := Heap.write
            (GetPodLevelResources (SetPodLevelResources exState2 "p" exSpec) "p").1.heap
            1 [("cpu", 999)],
          podInfoMap :=
            (GetPodLevelResources
              (SetPodLevelResources exState2 "p" exSpec) "p").1.podInfoMap } "p"
      = readPodLevelResources (SetPodLevelResources exState2 "p" exSpec) "p"
    ∧ exState2.heap.next ≤ 1
    ∧ resolveTable
          ((WriteOp.apply (WriteOp.del "p" "c") (GetPodResourceInfoMap exState2).1).heap)
          (GetPodResourceInfoMap exState2).2
      = resolveTable (GetPodResourceInfoMap exState2).1.heap
          (GetPodResourceInfoMap exState2).2 :=
  read_side_copy_isolation exState2 "p" "c" exSpec 1 1 [("cpu", 999)]
    (WriteOp.del "p" "c") (by decide) (by decide) (by decide)

end AllocState
